import Mathlib

set_option maxHeartbeats 1000000
set_option maxRecDepth 100000

/-!
Shallow embedding of `src/engine/core/IgePathFinder.js` (the `aStar`,
`_getNeighbours` and `_heuristic` methods).  JS numbers are modelled as `ℤ`
(coordinates) and `ℚ` (costs); every cost value the algorithm ever stores is an
integer Manhattan distance, and the only non-integer constant `1.4` takes part
in no arithmetic, so `ℚ` is exact for this program.  Emitted events and
`comparisonCallback` invocation counts are returned as part of the result, since
the spec describes both as observable behaviour.
-/

/-- Search node.  Modelled from the spec: `IgePathNode` is not under `src/`;
per spec §3 a SearchNode carries x, y, `score`, `priority` (`h` in the source)
and a predecessor reference (`link`), and Open/Closed membership is keyed by
coordinate.  The `start` constructor is the seeded start point, which the
source pushes directly with `link = 1` (a non-node chain terminator) and no
`score`/`h` fields (they read back as `undefined`, modelled as `none`). -/
inductive PNode where
  | start (x y : ℤ)
  | node (x y : ℤ) (score h : ℚ) (link : PNode)
deriving DecidableEq, Repr

/-- x coordinate of a node. -/
def PNode.x : PNode → ℤ
  | .start x _ => x
  | .node x _ _ _ _ => x

/-- y coordinate of a node. -/
def PNode.y : PNode → ℤ
  | .start _ y => y
  | .node _ y _ _ _ => y

/-- `score` property; `none` models JS `undefined` (the seeded start point). -/
def PNode.score : PNode → Option ℚ
  | .start _ _ => none
  | .node _ _ s _ _ => some s

/-- `h` property (the selection priority); `none` models JS `undefined`. -/
def PNode.h : PNode → Option ℚ
  | .start _ _ => none
  | .node _ _ _ h _ => some h

/-- Default node for in-range list indexing (never actually read). -/
def dfltNode : PNode := .start 0 0

/-- JS `<` on possibly-`undefined` numbers: any comparison involving
`undefined` is false. -/
def jsLt : Option ℚ → Option ℚ → Bool
  | some a, some b => decide (a < b)
  | _, _ => false

/-- A freshly constructed `new IgePathNode(newX, newY, w)` as built inside
`_getNeighbours` (source lines 160-219): coordinates plus the movement weight
passed as the constructor's `score` argument. -/
structure Candidate where
  x : ℤ
  y : ℤ
  score : ℚ
deriving DecidableEq, Repr

/-- Source lines 233-235: Manhattan distance heuristic. -/
def _heuristic (x1 y1 x2 y2 : ℤ) : ℚ :=
  ((|x1 - x2| + |y1 - y2| : ℤ) : ℚ)

/-- Events emitted via `this.emit(...)` in `aStar`. -/
inductive PathEvent where
  | pathFound
  | noPathFound
  | exceededLimit
deriving DecidableEq, Repr

/-- The mutable locals of one `aStar` call (source lines 20-23), plus the
number of `comparisonCallback` invocations made so far (the spec's
"instrumented predicate call counter"). -/
structure SearchState where
  openList : List PNode
  openListHash : List (ℤ × ℤ)
  closedList : List PNode
  closedListHash : List (ℤ × ℤ)
  cbCalls : ℕ
deriving DecidableEq, Repr

/-- Result of one `aStar` call: the returned array, the chronological list of
emitted events, and the total number of `comparisonCallback` invocations. -/
structure SearchResult where
  path : List PNode
  events : List PathEvent
  cbCalls : ℕ
deriving DecidableEq, Repr

section PathFinder

variable {α : Type} (mapData : ℤ → ℤ → Option α)
  (cb : Option α → ℤ → ℤ → Bool) (allowSquare allowDiagonal : Bool)
  (ex ey : ℤ)

/-- One direction probe of `_getNeighbours`: look the tile up (`null`, i.e.
`none`, when the row or cell is missing or falsy), call `comparisonCallback`,
and keep the candidate node when it returns true. -/
def dirCand (nx ny : ℤ) (w : ℚ) : List Candidate :=
  if cb (mapData ny nx) nx ny then [⟨nx, ny, w⟩] else []

/-- Source lines 150-222 (`_getNeighbours`): up to 4 orthogonal candidates with
weight 1 and up to 4 diagonal candidates with weight 1.4, in source order.
Also returns the number of `comparisonCallback` invocations made (one per
probed direction, regardless of the verdict). -/
def _getNeighbours (cx cy : ℤ) : List Candidate × ℕ :=
  ((if allowSquare then
      dirCand mapData cb (cx - 1) cy 1 ++ dirCand mapData cb (cx + 1) cy 1 ++
      dirCand mapData cb cx (cy - 1) 1 ++ dirCand mapData cb cx (cy + 1) 1
    else []) ++
   (if allowDiagonal then
      dirCand mapData cb (cx - 1) (cy - 1) 1.4 ++ dirCand mapData cb (cx + 1) (cy - 1) 1.4 ++
      dirCand mapData cb (cx - 1) (cy + 1) 1.4 ++ dirCand mapData cb (cx + 1) (cy + 1) 1.4
    else []),
   (if allowSquare then 4 else 0) + (if allowDiagonal then 4 else 0))

/-- Source lines 68-73: the backward index scan selecting the node to expand.
`lowIndAux l n low` still has indices `n-1, n-2, ..., 0` to examine, with
current incumbent `low`. -/
def lowIndAux (l : List PNode) : ℕ → ℕ → ℕ
  | 0, low => low
  | n + 1, low =>
      lowIndAux l n (if jsLt ((l.getD n dfltNode).h) ((l.getD low dfltNode).h) then n else low)

/-- `lowInd` as computed by the source: scan from index `length - 1` down to
`0`, starting from incumbent `0`, replacing only on a strict `<`. -/
def lowIndOf (l : List PNode) : ℕ := lowIndAux l l.length 0

/-- Source lines 80-86: walk predecessor links from the goal node, pushing each
node, until the chain terminator (the start point's `link = 1`) is passed. -/
def reconstruct : PNode → List PNode
  | .start x y => [.start x y]
  | .node x y s h link => .node x y s h link :: reconstruct link

/-- Source lines 105-127: process one generated neighbour.  If its coordinate
is on the closed list, nothing happens.  If its coordinate is absent from
`openListHash`, the fresh node gets `score = h = ` heuristic-to-end and
`link = currentNode` and is pushed onto the open list (the source assigns
`link`/`h` just after the push, to the same object).  Otherwise — lines
117-125 — when `gScore < neighbourNode.score` the source sets `link` and `h` on
the freshly constructed neighbour node only, which is never stored anywhere, so
the state is unchanged in both arms. -/
def processNb (currentNode : PNode) (st : SearchState) (nb : Candidate) : SearchState :=
  if (nb.x, nb.y) ∈ st.closedListHash then st
  else if (nb.x, nb.y) ∈ st.openListHash then
    if jsLt currentNode.score (some nb.score) then st else st
  else
    let hval := _heuristic nb.x nb.y ex ey
    { st with openList := st.openList ++ [PNode.node nb.x nb.y hval hval currentNode] }

/-- Source lines 105-127: the `while (neighborCount--)` loop runs over the
neighbour list from its last element to its first. -/
def processNeighbourList (currentNode : PNode) (st : SearchState) (l : List Candidate) :
    SearchState :=
  l.foldl (processNb ex ey currentNode) st

/-- Source lines 91-128: remove the selected node from the open list and its
coordinate key from `openListHash`, append it to the closed list and its
coordinate key to `closedListHash`, then process its generated neighbours in
reverse order. -/
def expandNode (st : SearchState) (lowInd : ℕ) (currentNode : PNode) : SearchState :=
  let nbs := _getNeighbours mapData cb allowSquare allowDiagonal currentNode.x currentNode.y
  processNeighbourList ex ey currentNode
    { openList := st.openList.eraseIdx lowInd
      openListHash := st.openListHash.erase (currentNode.x, currentNode.y)
      closedList := st.closedList ++ [currentNode]
      closedListHash := st.closedListHash ++ [(currentNode.x, currentNode.y)]
      cbCalls := st.cbCalls + nbs.2 }
    nbs.1.reverse

/-- Outcome of one iteration of the `while (openList.length)` loop. -/
inductive IterRes where
  | done (r : SearchResult)
  | next (st : SearchState)
deriving DecidableEq, Repr

/-- Source lines 59-130, one iteration: exit with `noPathFound` when the open
list is empty (the `while` guard falling through to lines 132-135); abort with
`exceededLimit` followed by the fall-through `noPathFound` when the open list
holds more than 999 entries (lines 61-65 `break`, then 132-135); otherwise
select `lowInd`, return the reversed reconstructed chain with `pathFound` when
the selected node is the end point, and expand it otherwise. -/
def aStarIterate (st : SearchState) : IterRes :=
  if st.openList = [] then .done ⟨[], [.noPathFound], st.cbCalls⟩
  else if st.openList.length > 999 then
    .done ⟨[], [.exceededLimit, .noPathFound], st.cbCalls⟩
  else if (st.openList.getD (lowIndOf st.openList) dfltNode).x = ex ∧
      (st.openList.getD (lowIndOf st.openList) dfltNode).y = ey then
    .done ⟨(reconstruct (st.openList.getD (lowIndOf st.openList) dfltNode)).reverse,
      [.pathFound], st.cbCalls⟩
  else
    .next (expandNode mapData cb allowSquare allowDiagonal ex ey st (lowIndOf st.openList)
      (st.openList.getD (lowIndOf st.openList) dfltNode))

/-- The `while` loop, fuel-indexed: `none` means the loop has not terminated
within `fuel` iterations. -/
def aStarLoop : ℕ → SearchState → Option SearchResult
  | 0, _ => none
  | n + 1, st =>
      match aStarIterate mapData cb allowSquare allowDiagonal ex ey st with
      | .done r => some r
      | .next st' => aStarLoop n st'

/-- Source lines 52-56: the start point is pushed onto the open list (the
`IgePathNode` built as `startNode` is discarded) and its coordinate key is
recorded in `openListHash`; `cbCalls` is already 1 from the destination gate. -/
def seedState (sx sy : ℤ) : SearchState :=
  ⟨[.start sx sy], [(sx, sy)], [], [], 1⟩

/-- Source lines 42-137 (`aStar`): the destination gate looks up the tile at
the end point and calls `comparisonCallback` on it; on rejection the call
returns `[]` at once, emitting nothing, with exactly that one callback
invocation.  Otherwise the seeded loop runs. -/
def aStar (fuel : ℕ) (sx sy : ℤ) : Option SearchResult :=
  if cb (mapData ey ex) ex ey then
    aStarLoop mapData cb allowSquare allowDiagonal ex ey fuel (seedState sx sy)
  else some ⟨[], [], 1⟩

end PathFinder

/-- Modelled from the spec (§3 glossary, §8): the accumulated cost of a
returned path is the sum of per-step movement weights, a diagonal step (both
coordinates change) weighing 1.4 and an orthogonal step 1. -/
def pathCost : List PNode → ℚ
  | [] => 0
  | [_] => 0
  | a :: b :: t =>
      (if (!(a.x == b.x)) && (!(a.y == b.y)) then (1.4 : ℚ) else 1) + pathCost (b :: t)

/-- Modelled from the spec (§4.1 step 3b): "scan Open and pick the node with
the smallest `priority`; ties are broken by earliest position encountered in
the scan (first minimal value wins)" — the least index whose priority no other
open node strictly beats. -/
def specFirstMinIdx (l : List PNode) : ℕ :=
  l.findIdx (fun p => decide (∀ q ∈ l, ¬ jsLt q.h p.h))

/-! ### Concrete instances used by counterexamples and witnesses -/

/-- A fully open 4-wide, 5-tall rectangular tile map. -/
def gridMap : ℤ → ℤ → Option Unit := fun y x =>
  if 0 ≤ x ∧ x < 4 ∧ 0 ≤ y ∧ y < 5 then some () else none

/-- Passability predicate accepting exactly the in-bounds tiles. -/
def gridCb : Option Unit → ℤ → ℤ → Bool := fun t _ _ => t.isSome

/-- Predicate rejecting every tile (used for the destination-gate cases). -/
def blockCb : Option Unit → ℤ → ℤ → Bool := fun _ _ _ => false

/-- Test driver: the state after one more loop iteration (unchanged when the
iteration terminates the search). -/
def nextState {α : Type} (mapData : ℤ → ℤ → Option α) (cb : Option α → ℤ → ℤ → Bool)
    (asq adiag : Bool) (ex ey : ℤ) (st : SearchState) : SearchState :=
  match aStarIterate mapData cb asq adiag ex ey st with
  | .next st' => st'
  | .done _ => st

/-- State after iteration 1 of `aStar gridMap gridCb true false 3 4 _ 0 0`. -/
def gst1 : SearchState := nextState gridMap gridCb true false 3 4 (seedState 0 0)

/-- State after iteration 2. -/
def gst2 : SearchState := nextState gridMap gridCb true false 3 4 gst1

/-- State after iteration 3. -/
def gst3 : SearchState := nextState gridMap gridCb true false 3 4 gst2

/-- An empty tile map: every lookup yields the `null` sentinel. -/
def corrMap : ℤ → ℤ → Option Unit := fun _ _ => none

/-- Predicate accepting the non-negative x-axis corridor plus the end point
`(0, 5)`; every accepted coordinate is off-map (`null` tile data), which the
spec explicitly allows the predicate to accept. -/
def corrCb : Option Unit → ℤ → ℤ → Bool := fun _ x y =>
  (decide (y = 0) && decide (0 ≤ x)) || (decide (x = 0) && decide (y = 5))

/-- The single open node after `k` corridor iterations, with its predecessor
chain. -/
def corrChain : ℕ → PNode
  | 0 => .start 0 0
  | k + 1 => .node ((k : ℤ) + 1) 0 ((k + 6 : ℕ) : ℚ) ((k + 6 : ℕ) : ℚ) (corrChain k)

/-- The complete search state after `k` corridor iterations. -/
def corrStateK (k : ℕ) : SearchState :=
  { openList := [corrChain k]
    openListHash := if k = 0 then [((0 : ℤ), (0 : ℤ))] else []
    closedList := (List.range k).map (fun j => corrChain j)
    closedListHash := (List.range k).map (fun (j : ℕ) => ((j : ℤ), (0 : ℤ)))
    cbCalls := 1 + 4 * k }

/-- An open list with priorities `[5, 3, 3]`: the two distinct minimal nodes
expose the selection tie-break. -/
def selList : List PNode :=
  [.node 9 9 5 5 (.start 0 0), .node 8 8 3 3 (.start 0 0), .node 7 7 3 3 (.start 0 0)]

/-- Accepts every existing tile (used on `gridMap`). -/
def pW : Option Unit → ℤ → ℤ → Bool := fun t _ _ => t.isSome

/-- Same as `pW` except it rejects the coordinate `(0, 0)`. -/
def qW : Option Unit → ℤ → ℤ → Bool := fun t x y =>
  if x = 0 ∧ y = 0 then false else t.isSome

/-- A state whose open list holds exactly 1000 entries. -/
def stC : SearchState := ⟨List.replicate 1000 dfltNode, [], [], [], 0⟩

/-! ### Helper lemmas -/

theorem jsLt_self (a : Option ℚ) : jsLt a a = false := by
  cases a with
  | none => rfl
  | some q => simp [jsLt]

theorem jsLt_none_right (a : Option ℚ) : jsLt a none = false := by
  cases a <;> rfl

theorem jsLt_none_left (a : Option ℚ) : jsLt none a = false := by
  cases a <;> rfl

/-- The nodes the neighbour-processing loop appends to the open list: one per
candidate whose coordinate is in neither hash, carrying the Manhattan
heuristic to the end point as both `score` and `h`, linked to the expanding
node. -/
def insertedNodes (ex ey : ℤ) (cur : PNode) (closed openh : List (ℤ × ℤ))
    (l : List Candidate) : List PNode :=
  l.filterMap (fun nb =>
    if (nb.x, nb.y) ∈ closed then none
    else if (nb.x, nb.y) ∈ openh then none
    else some (PNode.node nb.x nb.y (_heuristic nb.x nb.y ex ey)
      (_heuristic nb.x nb.y ex ey) cur))

theorem processNb_closedListHash (ex ey : ℤ) (cur : PNode)
    (st : SearchState) (nb : Candidate) :
    (processNb ex ey cur st nb).closedListHash = st.closedListHash := by
  unfold processNb
  split_ifs <;> rfl

theorem processNb_openListHash (ex ey : ℤ) (cur : PNode)
    (st : SearchState) (nb : Candidate) :
    (processNb ex ey cur st nb).openListHash = st.openListHash := by
  unfold processNb
  split_ifs <;> rfl

/-- Characterisation of the neighbour-processing loop: the open list is purely
appended to, the appended nodes being `insertedNodes`, and no other component
of the state changes. -/
theorem processList_eq (ex ey : ℤ) (cur : PNode) (st : SearchState)
    (l : List Candidate) :
    processNeighbourList ex ey cur st l =
      { st with openList :=
          st.openList ++ insertedNodes ex ey cur st.closedListHash st.openListHash l } := by
  induction l generalizing st with
  | nil => simp [processNeighbourList, insertedNodes]
  | cons nb l ih =>
    show processNeighbourList ex ey cur (processNb ex ey cur st nb) l = _
    rw [ih]
    unfold processNb insertedNodes
    split_ifs with h1 h2 h3 <;>
      simp_all [insertedNodes, List.filterMap_cons, h1]

/-- A 1-tile map holding only `(0, 0)` (tiny `pathFound` run). -/
def unitMap : ℤ → ℤ → Option Unit := fun y x =>
  if x = 0 ∧ y = 0 then some () else none

theorem aStarIterate_done_events {α : Type} (mapData : ℤ → ℤ → Option α)
    (cb : Option α → ℤ → ℤ → Bool) (asq adiag : Bool) (ex ey : ℤ)
    (st : SearchState) (r : SearchResult)
    (h : aStarIterate mapData cb asq adiag ex ey st = .done r) :
    r.events = [.noPathFound] ∨ r.events = [.exceededLimit, .noPathFound] ∨
      r.events = [.pathFound] := by
  unfold aStarIterate at h
  split_ifs at h <;> cases h
  · left; rfl
  · right; left; rfl
  · right; right; rfl

theorem aStarLoop_events {α : Type} (mapData : ℤ → ℤ → Option α)
    (cb : Option α → ℤ → ℤ → Bool) (asq adiag : Bool) (ex ey : ℤ)
    (n : ℕ) (st : SearchState) (r : SearchResult)
    (h : aStarLoop mapData cb asq adiag ex ey n st = some r) :
    r.events = [.noPathFound] ∨ r.events = [.exceededLimit, .noPathFound] ∨
      r.events = [.pathFound] := by
  induction n generalizing st with
  | zero => simp [aStarLoop] at h
  | succ n ih =>
    rw [aStarLoop] at h
    cases hi : aStarIterate mapData cb asq adiag ex ey st with
    | done r' =>
      rw [hi] at h
      cases h
      exact aStarIterate_done_events mapData cb asq adiag ex ey st r hi
    | next st' =>
      rw [hi] at h
      exact ih st' h

/-- C6: when the destination gate's predicate call rejects the tile at the end
point, `aStar` returns `[]` at once (even with zero loop fuel, so no node is
ever expanded or inserted), emits nothing, and the predicate has been invoked
exactly once. -/
theorem C6_destination_gate {α : Type} (mapData : ℤ → ℤ → Option α)
    (cb : Option α → ℤ → ℤ → Bool) (asq adiag : Bool) (sx sy ex ey : ℤ) (fuel : ℕ)
    (hreject : cb (mapData ey ex) ex ey = false) :
    aStar mapData cb asq adiag ex ey fuel sx sy = some ⟨[], [], 1⟩ := by
  simp [aStar, hreject]

/-- Witness for C6 at a concrete rejecting predicate, with zero fuel. -/
theorem C6_witness :
    aStar gridMap blockCb true false 3 4 0 0 0 = some ⟨[], [], 1⟩ :=
  C6_destination_gate gridMap blockCb true false 0 0 3 4 0 rfl

/-- C2 counterexample: on a destination-gate rejection the source returns
without emitting any notification (lines 45-50 log and return, no `emit`), so
a call exists whose emission count is 0, not 1. -/
theorem C2_counterexample :
    (aStar gridMap blockCb true false 3 4 1 0 0).map (fun r => r.events.length) =
      some 0 ∧ (0 : ℕ) ≠ 1 := by
  constructor
  · decide
  · decide

/-- C2 amended: a terminating `search` call emits `[pathFound]` (goal found),
`[noPathFound]` (open list exhausted), or `[exceededLimit, noPathFound]` (the
cutoff `break` falls through to the bottom `noPathFound` emission, so the
cutoff case emits two notifications), and emits nothing at all when the
destination gate rejects. -/
theorem C2_events {α : Type} (mapData : ℤ → ℤ → Option α)
    (cb : Option α → ℤ → ℤ → Bool) (asq adiag : Bool) (sx sy ex ey : ℤ)
    (fuel : ℕ) (r : SearchResult)
    (h : aStar mapData cb asq adiag ex ey fuel sx sy = some r) :
    (cb (mapData ey ex) ex ey = false ∧ r.events = []) ∨
      r.events = [.pathFound] ∨ r.events = [.noPathFound] ∨
      r.events = [.exceededLimit, .noPathFound] := by
  unfold aStar at h
  split_ifs at h with hg
  · rcases aStarLoop_events mapData cb asq adiag ex ey fuel _ r h with h1 | h1 | h1
    · right; right; left; exact h1
    · right; right; right; exact h1
    · right; left; exact h1
  · cases h
    left
    exact ⟨by simpa using hg, rfl⟩

/-- Witness for C2 amended at a concrete 1-tile `pathFound` run. -/
theorem C2_witness :
    (gridCb (unitMap 0 0) 0 0 = false ∧
        (SearchResult.mk [.start 0 0] [.pathFound] 1).events = []) ∨
      (SearchResult.mk [.start 0 0] [.pathFound] 1).events = [.pathFound] ∨
      (SearchResult.mk [.start 0 0] [.pathFound] 1).events = [.noPathFound] ∨
      (SearchResult.mk [.start 0 0] [.pathFound] 1).events =
        [.exceededLimit, .noPathFound] :=
  C2_events unitMap gridCb true false 0 0 0 0 1 ⟨[.start 0 0], [.pathFound], 1⟩ (by decide)

/-- C1 counterexample: in the first expansion of the run on the open 4×5 grid
from `(0,0)` towards `(3,4)`, the node inserted for neighbour `(1,0)` carries
`score = 6` — the Manhattan heuristic to the end point (line 115 overwrites the
constructor's movement weight) — whereas the claim's movement-weighted
accumulated cost for this single orthogonal step is `1.0`. -/
theorem C1_counterexample :
    aStarIterate gridMap gridCb true false 3 4 (seedState 0 0) = .next gst1 ∧
    gst1.openList =
      [PNode.node 0 1 6 6 (.start 0 0), PNode.node 1 0 6 6 (.start 0 0)] ∧
    (PNode.node 1 0 6 6 (.start 0 0)).score = some 6 ∧ (6 : ℚ) ≠ 1 := by
  refine ⟨by decide, by decide, rfl, by norm_num⟩

/-- C1 amended: for every neighbour whose coordinate is on neither hash, the
node appended to the open list has `score` and priority `h` both equal to the
Manhattan heuristic from the neighbour to the end point (the constructor's
movement weight 1.0/1.4 is discarded by the overwrite at line 115, and no cost
is ever accumulated), and its predecessor is the expanding node — this is
exactly what `insertedNodes` appends. -/
theorem C1_inserted_nodes (ex ey : ℤ) (cur : PNode) (st : SearchState)
    (l : List Candidate) :
    (processNeighbourList ex ey cur st l).openList =
      st.openList ++ insertedNodes ex ey cur st.closedListHash st.openListHash l := by
  rw [processList_eq]

/-- C7 counterexample: at an open list of exactly 1000 entries the iteration
aborts with the cutoff (the source guard is `> 999`), contradicting the claim
that sizes of 1000 or fewer continue normally, i.e. that the cutoff fires
exactly when the size exceeds 1000. -/
theorem C7_counterexample :
    ¬ ∀ st : SearchState,
        (aStarIterate gridMap gridCb true false 3 4 st =
          .done ⟨[], [.exceededLimit, .noPathFound], st.cbCalls⟩) ↔
        1000 < st.openList.length := by
  intro hcl
  have h := (hcl stC).mp (by decide)
  simp [stC] at h

/-- C7 amended: the cutoff fires exactly when the open list holds 1000 or more
entries (`length > 999`): the next iteration then aborts, emitting
`exceededLimit` followed by the fall-through `noPathFound`, and the call
returns the empty sequence. -/
theorem C7_cutoff {α : Type} (mapData : ℤ → ℤ → Option α)
    (cb : Option α → ℤ → ℤ → Bool) (asq adiag : Bool) (ex ey : ℤ)
    (st : SearchState) (n : ℕ) (h : 999 < st.openList.length) :
    aStarLoop mapData cb asq adiag ex ey (n + 1) st =
      some ⟨[], [.exceededLimit, .noPathFound], st.cbCalls⟩ := by
  have hne : st.openList ≠ [] := by
    intro he
    rw [he] at h
    simp at h
  have hi : aStarIterate mapData cb asq adiag ex ey st =
      .done ⟨[], [.exceededLimit, .noPathFound], st.cbCalls⟩ := by
    unfold aStarIterate
    rw [if_neg hne, if_pos h]
  rw [aStarLoop, hi]

/-- Witness for C7 amended at the concrete 1000-entry open list. -/
theorem C7_witness :
    aStarLoop gridMap gridCb true false 3 4 1 stC =
      some ⟨[], [.exceededLimit, .noPathFound], 0⟩ :=
  C7_cutoff gridMap gridCb true false 3 4 stC 0 (by simp [stC])

theorem insertedNodes_mem (ex ey : ℤ) (cur : PNode) (closed openh : List (ℤ × ℤ))
    (l : List Candidate) (p : PNode) (hp : p ∈ insertedNodes ex ey cur closed openh l) :
    (p.x, p.y) ∉ closed := by
  rw [insertedNodes, List.mem_filterMap] at hp
  obtain ⟨nb, _, hif⟩ := hp
  by_cases h1 : (nb.x, nb.y) ∈ closed
  · rw [if_pos h1] at hif
    exact absurd hif (by simp)
  · rw [if_neg h1] at hif
    by_cases h2 : (nb.x, nb.y) ∈ openh
    · rw [if_pos h2] at hif
      exact absurd hif (by simp)
    · rw [if_neg h2] at hif
      rw [Option.some_inj] at hif
      subst hif
      simpa [PNode.x, PNode.y] using h1

theorem countP_insertedNodes_closed (ex ey : ℤ) (cur : PNode)
    (closed openh : List (ℤ × ℤ)) (l : List Candidate) (c : ℤ × ℤ)
    (hc : c ∈ closed) :
    (insertedNodes ex ey cur closed openh l).countP
      (fun p => decide ((p.x, p.y) = c)) = 0 := by
  rw [List.countP_eq_zero]
  intro p hp
  have hnc := insertedNodes_mem ex ey cur closed openh l p hp
  simp only [decide_eq_true_eq]
  intro heq
  exact hnc (heq ▸ hc)

theorem countP_eraseIdx {β : Type} (p : β → Bool) (d : β) :
    ∀ (l : List β) (i : ℕ), i < l.length →
      l.countP p = (l.eraseIdx i).countP p + (if p (l.getD i d) then 1 else 0)
  | [], i, h => by simp at h
  | a :: t, 0, _ => by
    simp [List.countP_cons]
  | a :: t, i + 1, h => by
    have ht : i < t.length := by simpa using h
    simp only [List.eraseIdx, List.countP_cons, List.getD_cons_succ]
    rw [countP_eraseIdx p d t i ht]
    omega

/-- `expandNode` written out via the `insertedNodes` characterisation. -/
theorem expandNode_eq {α : Type} (mapData : ℤ → ℤ → Option α)
    (cb : Option α → ℤ → ℤ → Bool) (asq adiag : Bool) (ex ey : ℤ)
    (st : SearchState) (li : ℕ) (cur : PNode) :
    expandNode mapData cb asq adiag ex ey st li cur =
      { openList := st.openList.eraseIdx li ++
          insertedNodes ex ey cur (st.closedListHash ++ [(cur.x, cur.y)])
            (st.openListHash.erase (cur.x, cur.y))
            ((_getNeighbours mapData cb asq adiag cur.x cur.y).1.reverse)
        openListHash := st.openListHash.erase (cur.x, cur.y)
        closedList := st.closedList ++ [cur]
        closedListHash := st.closedListHash ++ [(cur.x, cur.y)]
        cbCalls := st.cbCalls + (_getNeighbours mapData cb asq adiag cur.x cur.y).2 } := by
  unfold expandNode
  rw [processList_eq]

/-- C3 counterexample: in iteration 3 of the open-grid run the expanding node
`(1,1)` has `score = 5`, the coordinate `(1,0)` is already present in the open
frontier with stored `score = 6`, and `5 < 6` — yet after the iteration the
stored node still has its original predecessor (the start point), not the
expanding node the claim demands, and a duplicate node for `(1,0)` has been
appended instead. -/
theorem C3_counterexample :
    aStarIterate gridMap gridCb true false 3 4 (seedState 0 0) = .next gst1 ∧
    aStarIterate gridMap gridCb true false 3 4 gst1 = .next gst2 ∧
    aStarIterate gridMap gridCb true false 3 4 gst2 = .next gst3 ∧
    gst2.openList.getD (lowIndOf gst2.openList) dfltNode =
      PNode.node 1 1 5 5 (PNode.node 0 1 6 6 (.start 0 0)) ∧
    gst2.openList.getD 0 dfltNode = PNode.node 1 0 6 6 (.start 0 0) ∧
    gst2.openList.countP (fun p => decide (p.x = 1 ∧ p.y = 0)) = 1 ∧
    (5 : ℚ) < 6 ∧
    gst3.openList.getD 0 dfltNode = PNode.node 1 0 6 6 (.start 0 0) ∧
    PNode.node 1 0 6 6 (.start 0 0) ≠
      PNode.node 1 0 6 6 (PNode.node 1 1 5 5 (PNode.node 0 1 6 6 (.start 0 0))) := by
  refine ⟨by decide, by decide, by decide, by decide, by decide, by decide,
    by norm_num, by decide, by decide⟩

/-- C3 amended: a node stored in the open frontier is never modified by
neighbour processing — whatever the score comparison says, every pre-existing
open-list position is preserved verbatim (the source's update branch only
mutates the freshly constructed neighbour node, which is discarded, and its
`openListHash` guard is never satisfiable after the seed key is deleted). -/
theorem C3_stored_nodes_unchanged (ex ey : ℤ) (cur : PNode) (st : SearchState)
    (l : List Candidate) (i : ℕ) (hi : i < st.openList.length) :
    (processNeighbourList ex ey cur st l).openList.getD i dfltNode =
      st.openList.getD i dfltNode := by
  rw [processList_eq]
  exact List.getD_append _ _ _ _ hi

/-- Witness for C3 amended at a concrete state and neighbour list. -/
theorem C3_witness :
    (processNeighbourList 3 4 (.start 0 0) gst1 [⟨2, 2, 1⟩]).openList.getD 0 dfltNode =
      gst1.openList.getD 0 dfltNode :=
  C3_stored_nodes_unchanged 3 4 (.start 0 0) gst1 [⟨2, 2, 1⟩] 0 (by decide)

/-- C4 counterexample: after three iterations of the open-grid run the open
frontier holds two distinct nodes with the same coordinate `(1,0)` — the open
list is not coordinate-unique. -/
theorem C4_counterexample :
    aStarIterate gridMap gridCb true false 3 4 (seedState 0 0) = .next gst1 ∧
    aStarIterate gridMap gridCb true false 3 4 gst1 = .next gst2 ∧
    aStarIterate gridMap gridCb true false 3 4 gst2 = .next gst3 ∧
    gst3.openList.countP (fun p => decide (p.x = 1 ∧ p.y = 0)) = 2 := by
  refine ⟨by decide, by decide, by decide, by decide⟩

/-- C4 amended: what does hold is closed-set monotonicity — a coordinate on the
closed list stays there, and once closed it is never inserted into the open
frontier again (each iteration can only remove open-list copies of a closed
coordinate, never add one). -/
theorem C4_closed_monotone {α : Type} (mapData : ℤ → ℤ → Option α)
    (cb : Option α → ℤ → ℤ → Bool) (asq adiag : Bool) (ex ey : ℤ)
    (st st' : SearchState)
    (h : aStarIterate mapData cb asq adiag ex ey st = .next st') (c : ℤ × ℤ)
    (hc : c ∈ st.closedListHash) :
    c ∈ st'.closedListHash ∧
      st'.openList.countP (fun p => decide ((p.x, p.y) = c)) ≤
        st.openList.countP (fun p => decide ((p.x, p.y) = c)) := by
  rw [aStarIterate] at h
  split_ifs at h
  cases h
  rw [expandNode_eq]
  refine ⟨List.mem_append_left _ hc, ?_⟩
  dsimp only
  rw [List.countP_append,
    countP_insertedNodes_closed _ _ _ _ _ _ c (List.mem_append_left _ hc)]
  simpa using
    List.Sublist.countP_le _ (List.eraseIdx_sublist st.openList (lowIndOf st.openList))

/-- Witness for C4 amended: the coordinate `(0,0)` is closed after iteration 1
of the grid run and stays closed with no new open copies after iteration 2. -/
theorem C4_witness :
    ((0 : ℤ), (0 : ℤ)) ∈ gst2.closedListHash ∧
      gst2.openList.countP (fun p => decide ((p.x, p.y) = ((0 : ℤ), (0 : ℤ)))) ≤
        gst1.openList.countP (fun p => decide ((p.x, p.y) = ((0 : ℤ), (0 : ℤ)))) :=
  C4_closed_monotone gridMap gridCb true false 3 4 gst1 gst2 (by decide) (0, 0) (by decide)

/-- The node chain the open-grid run returns, node `gc i` linking back to its
predecessor `gc (i-1)`. -/
def gc0 : PNode := .start 0 0

/-- Second node of the returned grid path. -/
def gc1 : PNode := .node 0 1 6 6 gc0

/-- Third node of the returned grid path. -/
def gc2 : PNode := .node 1 1 5 5 gc1

/-- Fourth node of the returned grid path. -/
def gc3 : PNode := .node 2 1 4 4 gc2

/-- Fifth node of the returned grid path. -/
def gc4 : PNode := .node 3 1 3 3 gc3

/-- Sixth node of the returned grid path. -/
def gc5 : PNode := .node 3 2 2 2 gc4

/-- Seventh node of the returned grid path. -/
def gc6 : PNode := .node 3 3 1 1 gc5

/-- Eighth node of the returned grid path. -/
def gc7 : PNode := .node 3 4 0 0 gc6

/-- The full path returned by the open-grid run. -/
def gridPath : List PNode := [gc0, gc1, gc2, gc3, gc4, gc5, gc6, gc7]

/-- C8: on the fully open 4×5 grid with square-only movement, the path
returned between `(0,0)` and `(3,4)` is exactly `gridPath`: it has length 8
inclusive of both endpoints, total movement-weighted accumulated cost 7, and
the single `pathFound` emission. -/
theorem C8_grid_path :
    (aStar gridMap gridCb true false 3 4 60 0 0).map (fun r => r.path) = some gridPath ∧
    gridPath.length = 8 ∧
    pathCost gridPath = 7 ∧
    ((gridPath.headD dfltNode).x, (gridPath.headD dfltNode).y) = (0, 0) ∧
    ((gridPath.getLastD dfltNode).x, (gridPath.getLastD dfltNode).y) = (3, 4) ∧
    (aStar gridMap gridCb true false 3 4 60 0 0).map (fun r => r.events) =
      some [.pathFound] := by
  refine ⟨by decide, by decide, ?_, by decide, by decide, by decide⟩
  norm_num [gridPath, gc0, gc1, gc2, gc3, gc4, gc5, gc6, gc7, pathCost, PNode.x, PNode.y]


theorem jsLt_some_some (a b : ℚ) : jsLt (some a) (some b) = decide (a < b) := rfl

theorem jsLt_false_mono {v w : ℚ} (hvw : v ≤ w) {c : Option ℚ}
    (h : jsLt (some v) c = false) : jsLt (some w) c = false := by
  cases c with
  | none => rw [jsLt_none_right]
  | some u =>
    rw [jsLt_some_some, decide_eq_false_iff_not] at h ⊢
    intro hwu
    exact h (lt_of_le_of_lt hvw hwu)

/-- Invariant of the backward selection scan: the index it returns is never
strictly beaten (in the JS `<` sense) by any scanned index nor by the
incumbent, and an incumbent with `undefined` priority is never replaced. -/
theorem lowIndAux_spec (l : List PNode) :
    ∀ n low,
      (∀ j, j < n →
        jsLt ((l.getD j dfltNode).h) ((l.getD (lowIndAux l n low) dfltNode).h) = false) ∧
      jsLt ((l.getD low dfltNode).h) ((l.getD (lowIndAux l n low) dfltNode).h) = false ∧
      ((l.getD low dfltNode).h = none → lowIndAux l n low = low) := by
  intro n
  induction n with
  | zero =>
    intro low
    exact ⟨fun j hj => absurd hj (Nat.not_lt_zero j), jsLt_self _, fun _ => rfl⟩
  | succ n ih =>
    intro low
    by_cases hup : jsLt ((l.getD n dfltNode).h) ((l.getD low dfltNode).h) = true
    · have hrw : lowIndAux l (n + 1) low = lowIndAux l n n := by
        simp only [lowIndAux]
        rw [if_pos hup]
      obtain ⟨ih1, ih2, _⟩ := ih n
      rw [hrw]
      obtain ⟨w, hn⟩ : ∃ w, (l.getD n dfltNode).h = some w := by
        cases hn : (l.getD n dfltNode).h with
        | none => rw [hn, jsLt_none_left] at hup; cases hup
        | some w => exact ⟨w, rfl⟩
      obtain ⟨v, hlow⟩ : ∃ v, (l.getD low dfltNode).h = some v := by
        cases hlow : (l.getD low dfltNode).h with
        | none => rw [hlow, jsLt_none_right] at hup; cases hup
        | some v => exact ⟨v, rfl⟩
      rw [hn, hlow, jsLt_some_some, decide_eq_true_eq] at hup
      have ih2' := ih2
      rw [hn] at ih2'
      refine ⟨?_, ?_, ?_⟩
      · intro j hj
        rcases Nat.lt_succ_iff_lt_or_eq.mp hj with hj' | heq
        · exact ih1 j hj'
        · rw [heq, hn]
          exact ih2'
      · rw [hlow]
        exact jsLt_false_mono (le_of_lt hup) ih2'
      · intro hlow'
        rw [hlow'] at hlow
        exact Option.noConfusion hlow
    · have hrw : lowIndAux l (n + 1) low = lowIndAux l n low := by
        simp only [lowIndAux]
        rw [if_neg hup]
      have hup' : jsLt ((l.getD n dfltNode).h) ((l.getD low dfltNode).h) = false := by
        simpa using hup
      obtain ⟨ih1, ih2, ih3⟩ := ih low
      rw [hrw]
      refine ⟨?_, ih2, ih3⟩
      intro j hj
      rcases Nat.lt_succ_iff_lt_or_eq.mp hj with hj' | heq
      · exact ih1 j hj'
      · rw [heq]
        cases hlow : (l.getD low dfltNode).h with
        | none =>
          rw [ih3 hlow, hlow, jsLt_none_right]
        | some v =>
          cases hn : (l.getD n dfltNode).h with
          | none => rw [jsLt_none_left]
          | some w =>
            rw [hn, hlow, jsLt_some_some, decide_eq_false_iff_not] at hup'
            have ih2' := ih2
            rw [hlow] at ih2'
            exact jsLt_false_mono (le_of_not_lt hup') ih2'

theorem lowIndAux_lt_length (l : List PNode) :
    ∀ n low, n ≤ l.length → low < l.length → lowIndAux l n low < l.length := by
  intro n
  induction n with
  | zero =>
    intro low _ h
    exact h
  | succ n ih =>
    intro low hn hlow
    simp only [lowIndAux]
    refine ih _ (Nat.le_of_succ_le hn) ?_
    split_ifs with hc
    · omega
    · exact hlow

theorem lowIndOf_lt_length (l : List PNode) (h : l ≠ []) : lowIndOf l < l.length :=
  lowIndAux_lt_length l l.length 0 (le_refl _) (List.length_pos.mpr h)

theorem lowIndAux_no_improve (l : List PNode) :
    ∀ n low,
      (∀ j, j < n → jsLt ((l.getD j dfltNode).h) ((l.getD low dfltNode).h) = false) →
      lowIndAux l n low = low := by
  intro n
  induction n with
  | zero =>
    intro low _
    rfl
  | succ n ih =>
    intro low hmin
    simp only [lowIndAux]
    rw [if_neg (by rw [hmin n (Nat.lt_succ_self n)]; simp)]
    exact ih low (fun j hj => hmin j (hj.trans (Nat.lt_succ_self n)))

theorem lowIndAux_reaches (l : List PNode) (K : ℕ)
    (hmin : ∀ j, j < K → jsLt ((l.getD j dfltNode).h) ((l.getD K dfltNode).h) = false) :
    ∀ n low, K < n →
      jsLt ((l.getD K dfltNode).h) ((l.getD low dfltNode).h) = true →
      (∀ j, K < j → j < n → jsLt ((l.getD K dfltNode).h) ((l.getD j dfltNode).h) = true) →
      lowIndAux l n low = K := by
  intro n
  induction n with
  | zero =>
    intro low h
    exact absurd h (Nat.not_lt_zero K)
  | succ n ih =>
    intro low hKn hKlow hafter
    rcases Nat.lt_succ_iff_lt_or_eq.mp hKn with hKn' | rfl
    · simp only [lowIndAux]
      by_cases hup : jsLt ((l.getD n dfltNode).h) ((l.getD low dfltNode).h) = true
      · rw [if_pos hup]
        exact ih n hKn' (hafter n hKn' (Nat.lt_succ_self n))
          (fun j h1 h2 => hafter j h1 (h2.trans (Nat.lt_succ_self n)))
      · rw [if_neg hup]
        exact ih low hKn' hKlow
          (fun j h1 h2 => hafter j h1 (h2.trans (Nat.lt_succ_self n)))
    · simp only [lowIndAux]
      rw [if_pos hKlow]
      exact lowIndAux_no_improve l K K hmin

/-- C5 counterexample: on priorities `[5, 3, 3]` the source's backward scan
selects index 2, while the spec's "earliest position, first minimal value
wins" rule selects index 1. -/
theorem C5_counterexample :
    lowIndOf selList = 2 ∧ specFirstMinIdx selList = 1 ∧ (2 : ℕ) ≠ 1 :=
  ⟨by decide, by decide, by decide⟩

/-- C5 amended: the node chosen for expansion (`lowIndOf`, used by
`aStarIterate`) is never strictly beaten on priority by any open node, but the
tie-break is not "earliest position wins": the incumbent index 0 wins whenever
no node strictly beats it, and otherwise the LARGEST index attaining the
minimum wins (the scan runs backward with a strict comparison). -/
theorem C5_selection (l : List PNode) :
    (∀ j, j < l.length →
      jsLt ((l.getD j dfltNode).h) ((l.getD (lowIndOf l) dfltNode).h) = false) ∧
    ((∀ j, j < l.length →
        jsLt ((l.getD j dfltNode).h) ((l.getD 0 dfltNode).h) = false) →
      lowIndOf l = 0) ∧
    (∀ K, K < l.length →
      jsLt ((l.getD K dfltNode).h) ((l.getD 0 dfltNode).h) = true →
      (∀ j, j < K → jsLt ((l.getD j dfltNode).h) ((l.getD K dfltNode).h) = false) →
      (∀ j, K < j → j < l.length →
        jsLt ((l.getD K dfltNode).h) ((l.getD j dfltNode).h) = true) →
      lowIndOf l = K) := by
  refine ⟨(lowIndAux_spec l l.length 0).1, ?_, ?_⟩
  · intro hmin
    exact lowIndAux_no_improve l l.length 0 hmin
  · intro K hK h0 hmin hafter
    exact lowIndAux_reaches l K hmin l.length 0 hK h0 hafter

/-- Witness for C5 amended at the concrete tie-prone list: minimality at
index 0 and the full tie-break conclusion `lowIndOf selList = 2`. -/
theorem C5_witness :
    jsLt ((selList.getD 0 dfltNode).h)
      ((selList.getD (lowIndOf selList) dfltNode).h) = false ∧
    lowIndOf selList = 2 := by
  refine ⟨(C5_selection selList).1 0 (by decide),
    (C5_selection selList).2.2 2 (by decide) (by decide) ?_ ?_⟩
  · intro j hj
    interval_cases j <;> decide
  · intro j h1 h2
    have h3 : selList.length = 3 := rfl
    omega

theorem corrChain_x (k : ℕ) : (corrChain k).x = (k : ℤ) := by
  cases k with
  | zero => rfl
  | succ k => simp [corrChain, PNode.x]

theorem corrChain_y (k : ℕ) : (corrChain k).y = 0 := by
  cases k with
  | zero => rfl
  | succ k => simp [corrChain, PNode.y]

theorem lowIndOf_singleton (p : PNode) : lowIndOf [p] = 0 := by
  simp [lowIndOf, lowIndAux, jsLt_self]

theorem corr_getNeighbours (k : ℕ) :
    _getNeighbours corrMap corrCb true false ((k : ℤ) + 1) 0 =
      ([⟨(k : ℤ), 0, 1⟩, ⟨(k : ℤ) + 2, 0, 1⟩], 4) := by
  have h1 : corrCb none ((k : ℤ) + 1 - 1) 0 = true := by
    simp [corrCb]
  have h2 : corrCb none ((k : ℤ) + 1 + 1) 0 = true := by
    simp [corrCb]
    omega
  have h3 : corrCb none ((k : ℤ) + 1) (0 - 1) = false := by
    simp [corrCb]
  have h4 : corrCb none ((k : ℤ) + 1) (0 + 1) = false := by
    simp [corrCb]
  simp only [_getNeighbours, dirCand, corrMap, h1, h2, h3, h4, if_true, if_false]
  norm_num
  all_goals omega


theorem corr_hash_notmem (k : ℕ) :
    ((k : ℤ) + 2, (0 : ℤ)) ∉
      ((List.range (k + 1)).map (fun (j : ℕ) => ((j : ℤ), (0 : ℤ))) ++
        [((k : ℤ) + 1, (0 : ℤ))]) := by
  intro hmem
  rcases List.mem_append.mp hmem with hm | hm
  · obtain ⟨j, hj, hjeq⟩ := List.mem_map.mp hm
    rw [List.mem_range] at hj
    have h1 := (Prod.ext_iff.mp hjeq).1
    omega
  · rw [List.mem_singleton] at hm
    have h1 := (Prod.ext_iff.mp hm).1
    omega

theorem corr_hash_mem (k : ℕ) :
    ((k : ℤ), (0 : ℤ)) ∈
      ((List.range (k + 1)).map (fun (j : ℕ) => ((j : ℤ), (0 : ℤ))) ++
        [((k : ℤ) + 1, (0 : ℤ))]) :=
  List.mem_append_left _
    (List.mem_map.mpr ⟨k, List.mem_range.mpr (Nat.lt_succ_self k), rfl⟩)

theorem corr_step (k : ℕ) :
    aStarIterate corrMap corrCb true false 0 5 (corrStateK k) = .next (corrStateK (k + 1)) := by
  cases k with
  | zero => decide
  | succ k =>
    have hopen : (corrStateK (k + 1)).openList = [corrChain (k + 1)] := rfl
    have hsel : (corrStateK (k + 1)).openList.getD
        (lowIndOf (corrStateK (k + 1)).openList) dfltNode = corrChain (k + 1) := by
      rw [hopen, lowIndOf_singleton]
      rfl
    rw [aStarIterate, if_neg (by simp [corrStateK]), if_neg (by simp [corrStateK]),
      if_neg (by rw [hsel]; simp [corrChain_y])]
    congr 1
    rw [hsel, expandNode_eq]
    have hx : (corrChain (k + 1)).x = (k : ℤ) + 1 := rfl
    have hy : (corrChain (k + 1)).y = 0 := rfl
    rw [hx, hy, corr_getNeighbours]
    have he : (corrStateK (k + 1)).openList.eraseIdx
        (lowIndOf (corrStateK (k + 1)).openList) = [] := by
      rw [hopen, lowIndOf_singleton]
      rfl
    have hch : (corrStateK (k + 1)).closedListHash =
        (List.range (k + 1)).map (fun (j : ℕ) => ((j : ℤ), (0 : ℤ))) := rfl
    have hoh : (corrStateK (k + 1)).openListHash = [] := rfl
    have hcl : (corrStateK (k + 1)).closedList =
        (List.range (k + 1)).map (fun j => corrChain j) := rfl
    have hcb : (corrStateK (k + 1)).cbCalls = 1 + 4 * (k + 1) := rfl
    rw [he, hch, hoh, hcl, hcb]
    have hins : insertedNodes 0 5 (corrChain (k + 1))
        ((List.range (k + 1)).map (fun (j : ℕ) => ((j : ℤ), (0 : ℤ))) ++
          [((k : ℤ) + 1, (0 : ℤ))])
        (List.erase [] ((k : ℤ) + 1, 0))
        (([(⟨(k : ℤ), 0, 1⟩ : Candidate), ⟨(k : ℤ) + 2, 0, 1⟩]).reverse) =
        [corrChain (k + 2)] := by
      simp only [List.reverse_cons, List.reverse_nil, List.nil_append,
        List.cons_append, insertedNodes, List.filterMap]
      rw [if_neg (corr_hash_notmem k)]
      rw [if_neg (by simp)]
      rw [if_pos (corr_hash_mem k)]
      have hh : _heuristic ((k : ℤ) + 2) 0 0 5 = (((k + 1) + 6 : ℕ) : ℚ) := by
        rw [_heuristic]
        have h1 : |((k : ℤ) + 2 - 0)| = (k : ℤ) + 2 := by
          rw [abs_of_nonneg (by omega)]
          ring
        have h2 : |((0 : ℤ) - 5)| = 5 := by decide
        rw [h1, h2]
        push_cast
        ring
      rw [hh]
      rfl
    rw [hins]
    have hstk : corrStateK (k + 2) = SearchState.mk
        [corrChain (k + 2)] []
        ((List.range (k + 2)).map (fun j => corrChain j))
        ((List.range (k + 2)).map (fun (j : ℕ) => ((j : ℤ), (0 : ℤ))))
        (1 + 4 * (k + 2)) := by
      simp [corrStateK]
    rw [hstk]
    simp only [SearchState.mk.injEq]
    refine ⟨by simp, by simp, ?_, ?_, by omega⟩
    · rw [List.range_succ (k + 1), List.map_append]
      simp
    · rw [List.range_succ (k + 1), List.map_append]
      simp

theorem corr_loop (n : ℕ) : ∀ k : ℕ,
    aStarLoop corrMap corrCb true false 0 5 n (corrStateK k) = none := by
  induction n with
  | zero =>
    intro k
    rfl
  | succ n ih =>
    intro k
    rw [aStarLoop, corr_step]
    exact ih (k + 1)

theorem corr_seed : seedState 0 0 = corrStateK 0 := by decide

/-- C9 counterexample: with the predicate that accepts the whole non-negative
x-axis corridor (all off-map `null` tiles, which the spec allows a predicate to
accept) plus the pathable but unreachable end point `(0, 5)`, the search from
`(0, 0)` marches down the corridor forever: no fuel suffices, i.e. the call
does not terminate, refuting the claim for arbitrary predicates. -/
theorem C9_counterexample :
    ¬ ∃ n, (aStar corrMap corrCb true false 0 5 n 0 0).isSome = true := by
  rintro ⟨n, hn⟩
  rw [aStar, if_pos (by decide : corrCb (corrMap 5 0) 0 5 = true), corr_seed,
    corr_loop] at hn
  simp at hn

/-- Number of predicate-accepted coordinates (within a finite superset `S`)
not yet on the closed list: the primary termination measure. -/
def measureA (S : Finset (ℤ × ℤ)) (st : SearchState) : ℕ :=
  (S.filter (fun c => c ∉ st.closedListHash)).card

/-- Number of open-list entries whose coordinate is already closed (stale
duplicates): the secondary termination measure. -/
def measureC (st : SearchState) : ℕ :=
  st.openList.countP (fun p => decide ((p.x, p.y) ∈ st.closedListHash))

theorem dirCand_mem {α : Type} (mapData : ℤ → ℤ → Option α)
    (cb : Option α → ℤ → ℤ → Bool) (nx ny : ℤ) (w : ℚ) (nb : Candidate)
    (h : nb ∈ dirCand mapData cb nx ny w) :
    cb (mapData nb.y nb.x) nb.x nb.y = true := by
  rw [dirCand] at h
  split_ifs at h with hc
  · rcases List.mem_singleton.mp h with rfl
    exact hc
  · simp at h

theorem getNeighbours_mem {α : Type} (mapData : ℤ → ℤ → Option α)
    (cb : Option α → ℤ → ℤ → Bool) (asq adiag : Bool) (cx cy : ℤ) (nb : Candidate)
    (h : nb ∈ (_getNeighbours mapData cb asq adiag cx cy).1) :
    cb (mapData nb.y nb.x) nb.x nb.y = true := by
  rw [_getNeighbours] at h
  simp only [List.mem_append] at h
  rcases h with h | h
  · split_ifs at h with hsq
    · simp only [List.mem_append] at h
      rcases h with ((h | h) | h) | h <;> exact dirCand_mem _ _ _ _ _ _ h
    · simp at h
  · split_ifs at h with hdg
    · simp only [List.mem_append] at h
      rcases h with ((h | h) | h) | h <;> exact dirCand_mem _ _ _ _ _ _ h
    · simp at h

theorem insertedNodes_coords (ex ey : ℤ) (cur : PNode) (closed openh : List (ℤ × ℤ))
    (l : List Candidate) (p : PNode) (hp : p ∈ insertedNodes ex ey cur closed openh l) :
    ∃ nb ∈ l, p.x = nb.x ∧ p.y = nb.y := by
  rw [insertedNodes, List.mem_filterMap] at hp
  obtain ⟨nb, hnb, hif⟩ := hp
  by_cases h1 : (nb.x, nb.y) ∈ closed
  · rw [if_pos h1] at hif
    exact absurd hif (by simp)
  · rw [if_neg h1] at hif
    by_cases h2 : (nb.x, nb.y) ∈ openh
    · rw [if_pos h2] at hif
      exact absurd hif (by simp)
    · rw [if_neg h2] at hif
      rw [Option.some_inj] at hif
      subst hif
      exact ⟨nb, hnb, rfl, rfl⟩

/-- One `.next` step of the loop preserves the invariant that every open-list
coordinate lies in the accepted superset `S`, and strictly decreases the
lexicographic measure `(measureA, measureC)`. -/
theorem iterate_next_facts {α : Type} (mapData : ℤ → ℤ → Option α)
    (cb : Option α → ℤ → ℤ → Bool) (asq adiag : Bool) (ex ey : ℤ)
    (S : Finset (ℤ × ℤ))
    (hS : ∀ x y, cb (mapData y x) x y = true → (x, y) ∈ S)
    (st st' : SearchState)
    (hinv : ∀ p ∈ st.openList, (p.x, p.y) ∈ S)
    (h : aStarIterate mapData cb asq adiag ex ey st = .next st') :
    (∀ p ∈ st'.openList, (p.x, p.y) ∈ S) ∧
    (measureA S st' < measureA S st ∨
      (measureA S st' = measureA S st ∧ measureC st' < measureC st)) := by
  rw [aStarIterate] at h
  split_ifs at h with h1 h2 h3
  cases h
  rw [expandNode_eq]
  set D := st.openList.getD (lowIndOf st.openList) dfltNode with hD
  set closed2 := st.closedListHash ++ [(D.x, D.y)] with hcl2
  set ins := insertedNodes ex ey D closed2 (st.openListHash.erase (D.x, D.y))
      ((_getNeighbours mapData cb asq adiag D.x D.y).1.reverse) with hinsdef
  have hlt : lowIndOf st.openList < st.openList.length := lowIndOf_lt_length _ h1
  have hcur_mem : D ∈ st.openList := by
    rw [hD, List.getD_eq_getElem st.openList dfltNode hlt]
    exact List.getElem_mem hlt
  have hcurS : (D.x, D.y) ∈ S := hinv _ hcur_mem
  have hins_not_closed2 : ∀ p ∈ ins, (p.x, p.y) ∉ closed2 := by
    intro p hp
    exact insertedNodes_mem _ _ _ _ _ _ p hp
  constructor
  · -- invariant preservation
    intro p hp
    dsimp only at hp
    rcases List.mem_append.mp hp with hp | hp
    · exact hinv p ((List.eraseIdx_sublist st.openList (lowIndOf st.openList)).mem hp)
    · obtain ⟨nb, hnb, hpx, hpy⟩ := insertedNodes_coords _ _ _ _ _ _ p hp
      rw [List.mem_reverse] at hnb
      have hacc := getNeighbours_mem mapData cb asq adiag _ _ nb hnb
      rw [hpx, hpy]
      exact hS nb.x nb.y hacc
  · -- measure decrease
    simp only [measureA, measureC]
    by_cases hc : (D.x, D.y) ∈ st.closedListHash
    · -- stale expansion: measureA unchanged, measureC strictly decreases
      right
      have hmemiff : ∀ c : ℤ × ℤ, c ∈ closed2 ↔ c ∈ st.closedListHash := by
        intro c
        rw [hcl2]
        simp only [List.mem_append, List.mem_singleton]
        constructor
        · intro hm
          rcases hm with hm | hm
          · exact hm
          · exact hm ▸ hc
        · exact Or.inl
      constructor
      · apply congrArg Finset.card
        apply Finset.filter_congr
        intro c _
        exact not_congr (hmemiff c)
      · rw [List.countP_append]
        have hz : ins.countP (fun p => decide ((p.x, p.y) ∈ closed2)) = 0 := by
          rw [List.countP_eq_zero]
          intro p hp
          simp only [decide_eq_true_eq]
          exact hins_not_closed2 p hp
        rw [hz, Nat.add_zero]
        have hcongr : (st.openList.eraseIdx (lowIndOf st.openList)).countP
            (fun p => decide ((p.x, p.y) ∈ closed2)) =
            (st.openList.eraseIdx (lowIndOf st.openList)).countP
            (fun p => decide ((p.x, p.y) ∈ st.closedListHash)) := by
          apply List.countP_congr
          intro p _
          simp only [decide_eq_true_eq]
          exact hmemiff _
        rw [hcongr]
        have hsplit := countP_eraseIdx
          (fun p => decide ((p.x, p.y) ∈ st.closedListHash)) dfltNode
          st.openList (lowIndOf st.openList) hlt
        rw [← hD, if_pos (by simpa using hc)] at hsplit
        omega
    · -- fresh expansion: measureA strictly decreases
      left
      have hset : S.filter (fun c => c ∉ closed2) =
          (S.filter (fun c => c ∉ st.closedListHash)).erase (D.x, D.y) := by
        ext c
        rw [hcl2]
        simp only [Finset.mem_erase, Finset.mem_filter, List.mem_append,
          List.mem_singleton]
        constructor
        · intro hcc
          obtain ⟨hcS, hno⟩ := hcc
          exact ⟨fun he => hno (Or.inr he), hcS, fun hm => hno (Or.inl hm)⟩
        · intro hcc
          obtain ⟨hne, hcS, hno⟩ := hcc
          exact ⟨hcS, fun hm => hm.elim hno hne⟩
      rw [hset]
      have hmem : (D.x, D.y) ∈ S.filter (fun c => c ∉ st.closedListHash) :=
        Finset.mem_filter.mpr ⟨hcurS, hc⟩
      rw [Finset.card_erase_of_mem hmem]
      have hpos : 0 < (S.filter (fun c => c ∉ st.closedListHash)).card :=
        Finset.card_pos.mpr ⟨_, hmem⟩
      omega

theorem aStarLoop_terminates {α : Type} (mapData : ℤ → ℤ → Option α)
    (cb : Option α → ℤ → ℤ → Bool) (asq adiag : Bool) (ex ey : ℤ)
    (S : Finset (ℤ × ℤ))
    (hS : ∀ x y, cb (mapData y x) x y = true → (x, y) ∈ S) :
    ∀ st : SearchState, (∀ p ∈ st.openList, (p.x, p.y) ∈ S) →
      ∃ n, (aStarLoop mapData cb asq adiag ex ey n st).isSome = true := by
  suffices h : ∀ a c (st : SearchState), (∀ p ∈ st.openList, (p.x, p.y) ∈ S) →
      measureA S st = a → measureC st = c →
      ∃ n, (aStarLoop mapData cb asq adiag ex ey n st).isSome = true by
    exact fun st hinv => h (measureA S st) (measureC st) st hinv rfl rfl
  intro a
  induction a using Nat.strong_induction_on with
  | _ a ihA =>
    intro c
    induction c using Nat.strong_induction_on with
    | _ c ihC =>
      intro st hinv hA hC
      cases hi : aStarIterate mapData cb asq adiag ex ey st with
      | done r =>
        refine ⟨1, ?_⟩
        rw [aStarLoop, hi]
        rfl
      | next st' =>
        obtain ⟨hinv', hdec⟩ :=
          iterate_next_facts mapData cb asq adiag ex ey S hS st st' hinv hi
        rcases hdec with hlt | ⟨heq, hltC⟩
        · obtain ⟨n, hn⟩ := ihA (measureA S st') (hA ▸ hlt) (measureC st') st' hinv' rfl rfl
          refine ⟨n + 1, ?_⟩
          rw [aStarLoop, hi]
          exact hn
        · obtain ⟨n, hn⟩ := ihC (measureC st') (hC ▸ hltC) st' hinv' (heq.trans hA) rfl
          refine ⟨n + 1, ?_⟩
          rw [aStarLoop, hi]
          exact hn

/-- C9 amended: for every predicate accepting only coordinates inside some
finite set `S` (in particular every predicate that rejects off-map
coordinates of a finite map), a call to `search` terminates: some finite fuel
makes the loop end — by goal, exhaustion, or cutoff. -/
theorem C9_terminates {α : Type} (mapData : ℤ → ℤ → Option α)
    (cb : Option α → ℤ → ℤ → Bool) (asq adiag : Bool) (sx sy ex ey : ℤ)
    (S : Finset (ℤ × ℤ))
    (hS : ∀ x y, cb (mapData y x) x y = true → (x, y) ∈ S) :
    ∃ n, (aStar mapData cb asq adiag ex ey n sx sy).isSome = true := by
  by_cases hg : cb (mapData ey ex) ex ey = true
  · have hterm := aStarLoop_terminates mapData cb asq adiag ex ey
      (insert (sx, sy) S)
      (fun x y hxy => Finset.mem_insert_of_mem (hS x y hxy))
      (seedState sx sy) ?_
    · obtain ⟨n, hn⟩ := hterm
      refine ⟨n, ?_⟩
      rw [aStar, if_pos hg]
      exact hn
    · intro p hp
      rcases List.mem_singleton.mp hp with rfl
      exact Finset.mem_insert_self _ _
  · refine ⟨0, ?_⟩
    rw [aStar, if_neg hg]
    rfl

/-- The finite coordinate set of the open 4×5 grid. -/
def gridS : Finset (ℤ × ℤ) := (Finset.Icc (0 : ℤ) 3) ×ˢ (Finset.Icc (0 : ℤ) 4)

/-- Witness for C9 amended: the open-grid predicate accepts only the 20 grid
coordinates, so that search call terminates. -/
theorem C9_witness : ∃ n, (aStar gridMap gridCb true false 3 4 n 0 0).isSome = true :=
  C9_terminates gridMap gridCb true false 0 0 3 4 gridS (by
    intro x y hxy
    rw [gridCb] at hxy
    rw [gridMap] at hxy
    split_ifs at hxy with hb
    · rw [gridS, Finset.mem_product, Finset.mem_Icc, Finset.mem_Icc]
      omega
    · simp at hxy)

theorem insertedNodes_append (ex ey : ℤ) (cur : PNode) (closed openh : List (ℤ × ℤ))
    (l1 l2 : List Candidate) :
    insertedNodes ex ey cur closed openh (l1 ++ l2) =
      insertedNodes ex ey cur closed openh l1 ++ insertedNodes ex ey cur closed openh l2 := by
  rw [insertedNodes, insertedNodes, insertedNodes, List.filterMap_append]

theorem insertedNodes_reverse (ex ey : ℤ) (cur : PNode) (closed openh : List (ℤ × ℤ))
    (l : List Candidate) :
    insertedNodes ex ey cur closed openh l.reverse =
      (insertedNodes ex ey cur closed openh l).reverse := by
  rw [insertedNodes, insertedNodes, List.filterMap_reverse]

theorem insertedNodes_dirCand_agree {α : Type} (mapData : ℤ → ℤ → Option α)
    (p q : Option α → ℤ → ℤ → Bool) (sx sy : ℤ)
    (hagree : ∀ t x y, ((x, y) : ℤ × ℤ) ≠ (sx, sy) → p t x y = q t x y)
    (ex ey : ℤ) (cur : PNode) (closed openh : List (ℤ × ℤ))
    (hcl : ((sx, sy) : ℤ × ℤ) ∈ closed) (nx ny : ℤ) (w : ℚ) :
    insertedNodes ex ey cur closed openh (dirCand mapData p nx ny w) =
      insertedNodes ex ey cur closed openh (dirCand mapData q nx ny w) := by
  by_cases hxy : ((nx, ny) : ℤ × ℤ) = (sx, sy)
  · have hdrop : ∀ (r : Option α → ℤ → ℤ → Bool),
        insertedNodes ex ey cur closed openh (dirCand mapData r nx ny w) = [] := by
      intro r
      rw [dirCand]
      split_ifs with hc
      · rw [insertedNodes, List.filterMap]
        rw [if_pos (show ((⟨nx, ny, w⟩ : Candidate).x, (⟨nx, ny, w⟩ : Candidate).y) ∈ closed
            from hxy ▸ hcl)]
        rfl
      · rfl
    rw [hdrop p, hdrop q]
  · rw [dirCand, dirCand, hagree (mapData ny nx) nx ny hxy]

theorem getNeighbours_calls_agree {α : Type} (mapData : ℤ → ℤ → Option α)
    (p q : Option α → ℤ → ℤ → Bool) (asq adiag : Bool) (cx cy : ℤ) :
    (_getNeighbours mapData p asq adiag cx cy).2 =
      (_getNeighbours mapData q asq adiag cx cy).2 := rfl

theorem insertedNodes_getNeighbours_agree {α : Type} (mapData : ℤ → ℤ → Option α)
    (p q : Option α → ℤ → ℤ → Bool) (sx sy : ℤ)
    (hagree : ∀ t x y, ((x, y) : ℤ × ℤ) ≠ (sx, sy) → p t x y = q t x y)
    (ex ey : ℤ) (cur : PNode) (closed openh : List (ℤ × ℤ))
    (hcl : ((sx, sy) : ℤ × ℤ) ∈ closed) (asq adiag : Bool) (cx cy : ℤ) :
    insertedNodes ex ey cur closed openh
        ((_getNeighbours mapData p asq adiag cx cy).1.reverse) =
      insertedNodes ex ey cur closed openh
        ((_getNeighbours mapData q asq adiag cx cy).1.reverse) := by
  rw [insertedNodes_reverse, insertedNodes_reverse]
  apply congrArg List.reverse
  show insertedNodes ex ey cur closed openh _ = insertedNodes ex ey cur closed openh _
  rw [_getNeighbours, _getNeighbours]
  dsimp only
  rw [insertedNodes_append, insertedNodes_append]
  have hsq : insertedNodes ex ey cur closed openh
      (if asq = true then
        dirCand mapData p (cx - 1) cy 1 ++ dirCand mapData p (cx + 1) cy 1 ++
        dirCand mapData p cx (cy - 1) 1 ++ dirCand mapData p cx (cy + 1) 1
      else []) =
      insertedNodes ex ey cur closed openh
      (if asq = true then
        dirCand mapData q (cx - 1) cy 1 ++ dirCand mapData q (cx + 1) cy 1 ++
        dirCand mapData q cx (cy - 1) 1 ++ dirCand mapData q cx (cy + 1) 1
      else []) := by
    split_ifs
    · rw [insertedNodes_append, insertedNodes_append, insertedNodes_append,
        insertedNodes_append, insertedNodes_append, insertedNodes_append]
      rw [insertedNodes_dirCand_agree mapData p q sx sy hagree ex ey cur closed openh hcl,
        insertedNodes_dirCand_agree mapData p q sx sy hagree ex ey cur closed openh hcl,
        insertedNodes_dirCand_agree mapData p q sx sy hagree ex ey cur closed openh hcl,
        insertedNodes_dirCand_agree mapData p q sx sy hagree ex ey cur closed openh hcl]
    · rfl
  have hdg : insertedNodes ex ey cur closed openh
      (if adiag = true then
        dirCand mapData p (cx - 1) (cy - 1) 1.4 ++ dirCand mapData p (cx + 1) (cy - 1) 1.4 ++
        dirCand mapData p (cx - 1) (cy + 1) 1.4 ++ dirCand mapData p (cx + 1) (cy + 1) 1.4
      else []) =
      insertedNodes ex ey cur closed openh
      (if adiag = true then
        dirCand mapData q (cx - 1) (cy - 1) 1.4 ++ dirCand mapData q (cx + 1) (cy - 1) 1.4 ++
        dirCand mapData q (cx - 1) (cy + 1) 1.4 ++ dirCand mapData q (cx + 1) (cy + 1) 1.4
      else []) := by
    split_ifs
    · rw [insertedNodes_append, insertedNodes_append, insertedNodes_append,
        insertedNodes_append, insertedNodes_append, insertedNodes_append]
      rw [insertedNodes_dirCand_agree mapData p q sx sy hagree ex ey cur closed openh hcl,
        insertedNodes_dirCand_agree mapData p q sx sy hagree ex ey cur closed openh hcl,
        insertedNodes_dirCand_agree mapData p q sx sy hagree ex ey cur closed openh hcl,
        insertedNodes_dirCand_agree mapData p q sx sy hagree ex ey cur closed openh hcl]
    · rfl
  rw [hsq, hdg]

theorem expandNode_cb_agree {α : Type} (mapData : ℤ → ℤ → Option α)
    (p q : Option α → ℤ → ℤ → Bool) (sx sy : ℤ)
    (hagree : ∀ t x y, ((x, y) : ℤ × ℤ) ≠ (sx, sy) → p t x y = q t x y)
    (asq adiag : Bool) (ex ey : ℤ) (st : SearchState) (li : ℕ) (cur : PNode)
    (hcl : ((sx, sy) : ℤ × ℤ) ∈ st.closedListHash ++ [(cur.x, cur.y)]) :
    expandNode mapData p asq adiag ex ey st li cur =
      expandNode mapData q asq adiag ex ey st li cur := by
  rw [expandNode_eq, expandNode_eq]
  rw [insertedNodes_getNeighbours_agree mapData p q sx sy hagree ex ey cur _ _ hcl]
  rfl

theorem iterate_next_closedListHash {α : Type} (mapData : ℤ → ℤ → Option α)
    (cb : Option α → ℤ → ℤ → Bool) (asq adiag : Bool) (ex ey : ℤ)
    (st st' : SearchState)
    (h : aStarIterate mapData cb asq adiag ex ey st = .next st') :
    ∃ c, st'.closedListHash = st.closedListHash ++ [c] := by
  rw [aStarIterate] at h
  split_ifs at h
  cases h
  rw [expandNode_eq]
  exact ⟨_, rfl⟩

theorem iterate_cb_agree {α : Type} (mapData : ℤ → ℤ → Option α)
    (p q : Option α → ℤ → ℤ → Bool) (sx sy : ℤ)
    (hagree : ∀ t x y, ((x, y) : ℤ × ℤ) ≠ (sx, sy) → p t x y = q t x y)
    (asq adiag : Bool) (ex ey : ℤ) (st : SearchState)
    (hcl : ((sx, sy) : ℤ × ℤ) ∈ st.closedListHash) :
    aStarIterate mapData p asq adiag ex ey st =
      aStarIterate mapData q asq adiag ex ey st := by
  rw [aStarIterate, aStarIterate]
  by_cases he : st.openList = []
  · rw [if_pos he, if_pos he]
  · rw [if_neg he, if_neg he]
    by_cases hl : st.openList.length > 999
    · rw [if_pos hl, if_pos hl]
    · rw [if_neg hl, if_neg hl]
      by_cases hg : (st.openList.getD (lowIndOf st.openList) dfltNode).x = ex ∧
          (st.openList.getD (lowIndOf st.openList) dfltNode).y = ey
      · rw [if_pos hg, if_pos hg]
      · rw [if_neg hg, if_neg hg]
        exact congrArg IterRes.next
          (expandNode_cb_agree mapData p q sx sy hagree asq adiag ex ey st _ _
            (List.mem_append_left _ hcl))

theorem loop_cb_agree {α : Type} (mapData : ℤ → ℤ → Option α)
    (p q : Option α → ℤ → ℤ → Bool) (sx sy : ℤ)
    (hagree : ∀ t x y, ((x, y) : ℤ × ℤ) ≠ (sx, sy) → p t x y = q t x y)
    (asq adiag : Bool) (ex ey : ℤ) :
    ∀ (n : ℕ) (st : SearchState), ((sx, sy) : ℤ × ℤ) ∈ st.closedListHash →
      aStarLoop mapData p asq adiag ex ey n st =
        aStarLoop mapData q asq adiag ex ey n st := by
  intro n
  induction n with
  | zero =>
    intro st _
    rfl
  | succ n ih =>
    intro st hcl
    rw [aStarLoop, aStarLoop,
      iterate_cb_agree mapData p q sx sy hagree asq adiag ex ey st hcl]
    cases hi : aStarIterate mapData q asq adiag ex ey st with
    | done r => rfl
    | next st' =>
      obtain ⟨c, hc⟩ :=
        iterate_next_closedListHash mapData q asq adiag ex ey st st' hi
      exact ih st' (hc ▸ List.mem_append_left _ hcl)

/-- C10: when start and end differ, the result of `search` does not depend on
the predicate's verdict at the start coordinate: two predicates agreeing
everywhere except at `(sx, sy)` produce identical results (path, emissions and
predicate-call count alike).  The start tile is never gate-checked: its
coordinate is closed by the first expansion before any neighbour filtering can
consult it. -/
theorem C10_start_verdict_irrelevant {α : Type} (mapData : ℤ → ℤ → Option α)
    (p q : Option α → ℤ → ℤ → Bool) (asq adiag : Bool) (sx sy ex ey : ℤ) (fuel : ℕ)
    (hne : ((sx, sy) : ℤ × ℤ) ≠ (ex, ey))
    (hagree : ∀ t x y, ((x, y) : ℤ × ℤ) ≠ (sx, sy) → p t x y = q t x y) :
    aStar mapData p asq adiag ex ey fuel sx sy =
      aStar mapData q asq adiag ex ey fuel sx sy := by
  have hgate : p (mapData ey ex) ex ey = q (mapData ey ex) ex ey :=
    hagree _ ex ey (fun hc => hne hc.symm)
  rw [aStar, aStar, hgate]
  by_cases hg : q (mapData ey ex) ex ey = true
  · rw [if_pos hg, if_pos hg]
    cases fuel with
    | zero => rfl
    | succ n =>
      have hseed_it : ∀ r : Option α → ℤ → ℤ → Bool,
          aStarIterate mapData r asq adiag ex ey (seedState sx sy) =
            .next (expandNode mapData r asq adiag ex ey (seedState sx sy) 0
              (.start sx sy)) := by
        intro r
        rw [aStarIterate]
        rw [if_neg (by simp [seedState]), if_neg (by simp [seedState])]
        have hsel : (seedState sx sy).openList.getD
            (lowIndOf (seedState sx sy).openList) dfltNode = .start sx sy := by
          show ([PNode.start sx sy] : List PNode).getD
            (lowIndOf [PNode.start sx sy]) dfltNode = _
          rw [lowIndOf_singleton]
          rfl
        rw [hsel]
        rw [if_neg (by
          simp only [PNode.x, PNode.y]
          intro hc
          exact hne (by rw [hc.1, hc.2]))]
        have hli : lowIndOf (seedState sx sy).openList = 0 := by
          show lowIndOf [PNode.start sx sy] = 0
          exact lowIndOf_singleton _
        rw [hli]
      rw [aStarLoop, aStarLoop, hseed_it p, hseed_it q]
      have hexp : expandNode mapData p asq adiag ex ey (seedState sx sy) 0
          (.start sx sy) =
          expandNode mapData q asq adiag ex ey (seedState sx sy) 0 (.start sx sy) :=
        expandNode_cb_agree mapData p q sx sy hagree asq adiag ex ey _ _ _
          (by simp [seedState, PNode.x, PNode.y])
      rw [hexp]
      exact loop_cb_agree mapData p q sx sy hagree asq adiag ex ey n _
        (by rw [expandNode_eq]; exact List.mem_append_right _ (by
          simp [PNode.x, PNode.y]))
  · rw [if_neg hg, if_neg hg]

/-- Witness for C10: on the grid from `(0,0)` to `(1,0)`, the predicate that
rejects the start coordinate yields the same result as the one accepting it,
and the returned path still begins at the rejected start tile. -/
theorem C10_witness :
    aStar gridMap pW true false 1 0 40 0 0 = aStar gridMap qW true false 1 0 40 0 0 ∧
    (aStar gridMap qW true false 1 0 40 0 0).map
      (fun r => ((r.path.headD dfltNode).x, (r.path.headD dfltNode).y)) =
      some (0, 0) ∧
    qW (gridMap 0 0) 0 0 = false :=
  ⟨C10_start_verdict_irrelevant gridMap pW qW true false 0 0 1 0 40 (by decide)
    (by
      intro t x y hxy
      show t.isSome = if x = 0 ∧ y = 0 then false else t.isSome
      rw [if_neg (by
        intro hc
        exact hxy (by rw [hc.1, hc.2]))]),
   by decide, by decide⟩
